import Mathlib

/-!
Shallow embedding of the Cash Custody ledger
(`streamlit-Cash-Custody-app.py`) and proofs about its core operations.

The SQLite store is modelled as an explicit state (`DB`): the two tables
are lists kept in rowid (insertion) order, and the `AUTOINCREMENT`
counters are carried explicitly (`sqlite_sequence`).  Monetary values
(SQL `REAL`) are modelled as exact rationals.  SQL `UPDATE ... WHERE id = ?`
is a map over the table that rewrites every matching row and is a silent
no-op when none matches, exactly as in SQLite.
-/

namespace CashCustody

/-- A row of `accounts(id, name, balance)`. -/
structure Account where
  id : Nat
  name : String
  balance : Rat
deriving DecidableEq, Repr

/-- A row of
`transactions(id, date, type, description, amount, from_account_id, to_account_id, file_path)`. -/
structure Txn where
  id : Nat
  date : String
  type : String
  description : String
  amount : Rat
  from_account_id : Option Nat
  to_account_id : Option Nat
  file_path : Option String
deriving DecidableEq, Repr

/-- The whole persistent state: both tables plus their
`sqlite_sequence` autoincrement counters. -/
structure DB where
  accounts : List Account
  transactions : List Txn
  next_account_id : Nat
  next_txn_id : Nat
deriving DecidableEq, Repr

/-- `init_database`: both tables empty, both autoincrement counters at
their initial value (the first assigned rowid is 1). -/
def init_database : DB := ⟨[], [], 1, 1⟩

/-- The one error `add_account` can raise: the `UNIQUE` constraint on
`accounts.name` (surfaced as `IntegrityError` by sqlite3, named
`DuplicateNameError` by the specification). -/
inductive DBError where
  | duplicateName
deriving DecidableEq, Repr

/-- `add_account(name, balance)`: `INSERT INTO accounts (name, balance)`.
The `UNIQUE` constraint on `name` makes the insert fail when the name is
taken; otherwise the row is appended with the next autoincrement id. -/
def add_account (db : DB) (name : String) (balance : Rat) : Except DBError DB :=
  if db.accounts.any (fun a => a.name == name) then
    Except.error DBError.duplicateName
  else
    Except.ok
      { db with
        accounts := db.accounts ++ [⟨db.next_account_id, name, balance⟩],
        next_account_id := db.next_account_id + 1 }

/-- The state after calling `add_account`: on failure the uncommitted
connection is discarded, so the state is unchanged. -/
def add_account_run (db : DB) (name : String) (balance : Rat) : DB :=
  match add_account db name balance with
  | Except.ok db2 => db2
  | Except.error _ => db

/-- Python truthiness of an optional integer column value
(`if to_account_id:`): `None` and `0` are falsy. -/
def intTruthy : Option Nat → Bool
  | none => false
  | some n => n != 0

/-- `UPDATE accounts SET balance = balance + delta WHERE id = i`:
rewrites every matching row; silently a no-op when none matches. -/
def update_balance (accs : List Account) (i : Nat) (delta : Rat) : List Account :=
  accs.map (fun a => if a.id = i then { a with balance := a.balance + delta } else a)

/-- The `if aid: cursor.execute("UPDATE ...")` pattern of
`add_transaction`: the balance update guarded by Python truthiness of
the account id. -/
def guarded_update (accs : List Account) (aid : Option Nat) (delta : Rat) :
    List Account :=
  if intTruthy aid then update_balance accs (aid.getD 0) delta else accs

/-- `add_transaction(transaction_data)`: inserts the transaction row
unconditionally (there is no validation of `type` or `amount`), then
runs the per-type balance updates.  `DEPOSIT` credits the `to` side then
debits the `from` side; `TRANSFER` and `EXPENSE` debit the `from` side
then credit the `to` side; any other `type` runs no update at all. -/
def add_transaction (db : DB) (date ty desc : String) (amount : Rat)
    (from_account_id to_account_id : Option Nat) (file_path : Option String) : DB :=
  let row : Txn :=
    ⟨db.next_txn_id, date, ty, desc, amount, from_account_id, to_account_id, file_path⟩
  let accs0 := db.accounts
  let accs :=
    if ty = "DEPOSIT" then
      guarded_update (guarded_update accs0 to_account_id amount) from_account_id (-amount)
    else if ty = "TRANSFER" then
      guarded_update (guarded_update accs0 from_account_id (-amount)) to_account_id amount
    else if ty = "EXPENSE" then
      guarded_update (guarded_update accs0 from_account_id (-amount)) to_account_id amount
    else accs0
  { db with
    accounts := accs,
    transactions := db.transactions ++ [row],
    next_txn_id := db.next_txn_id + 1 }

/-- A `transaction_data` tuple, for sequencing `add_transaction` calls. -/
structure TxnInput where
  date : String
  type : String
  description : String
  amount : Rat
  from_account_id : Option Nat
  to_account_id : Option Nat
  file_path : Option String
deriving DecidableEq, Repr

/-- One `add_transaction` call from a tuple. -/
def add_transaction_input (db : DB) (t : TxnInput) : DB :=
  add_transaction db t.date t.type t.description t.amount
    t.from_account_id t.to_account_id t.file_path

/-- A sequence of `add_transaction` calls, in order. -/
def apply_all (db : DB) (ts : List TxnInput) : DB :=
  ts.foldl add_transaction_input db

/-- `reset_application` with the confirmation flag set: `DELETE` both
tables and their `sqlite_sequence` rows (so rowids restart at 1);
without confirmation the state is untouched. -/
def reset_application (confirm : Bool) (db : DB) : DB :=
  if confirm then ⟨[], [], 1, 1⟩ else db

/-- `LEFT JOIN accounts a ON t.x_account_id = a.id`, projecting `a.name`:
`NULL` when the id is `NULL` or resolves to no account row. -/
def join_name (accs : List Account) : Option Nat → Option String
  | none => none
  | some i => (accs.find? (fun a => a.id == i)).map (fun a => a.name)

/-- One row of the export spreadsheet. -/
structure ExportRow where
  date : String
  type : String
  description : String
  amount : Rat
  from_account : Option String
  to_account : Option String
  file_path : Option String
deriving DecidableEq, Repr

/-- The joined projection `export_transactions` selects for one
transaction row. -/
def export_row (accs : List Account) (t : Txn) : ExportRow :=
  ⟨t.date, t.type, t.description, t.amount,
    join_name accs t.from_account_id, join_name accs t.to_account_id, t.file_path⟩

/-- `export_transactions()`: the artifact as
(path, column headers, data rows in store-join order). -/
def export_transactions (db : DB) : String × List String × List ExportRow :=
  ("./uploads/transactions.xlsx",
   ["Date", "Type", "Description", "Amount", "From Account", "To Account", "File Path"],
   db.transactions.map (export_row db.accounts))

/-- First lookup of an account balance by id (`SELECT balance FROM
accounts WHERE id = i`), defaulting to 0 when the id resolves to no row. -/
def balance_of (db : DB) (i : Nat) : Rat :=
  ((db.accounts.find? (fun a => a.id == i)).map (fun a => a.balance)).getD 0

/-- The sum of all accounts' balances. -/
def total_balance (db : DB) : Rat :=
  (db.accounts.map (fun a => a.balance)).sum

/-- Whether an optional account id references an existing account row. -/
def ref_exists (accs : List Account) : Option Nat → Bool
  | none => false
  | some j => accs.any (fun a => a.id == j)

/-- The signed delta `add_transaction` applies to the balance of the
account with id `i` (the symmetric credit-to/debit-from rule; zero for
a `type` outside the closed set). -/
def balance_delta (ty : String) (amount : Rat) (fid tid : Option Nat) (i : Nat) : Rat :=
  if ty = "DEPOSIT" ∨ ty = "TRANSFER" ∨ ty = "EXPENSE" then
    (if intTruthy tid ∧ tid = some i then amount else 0)
      - (if intTruthy fid ∧ fid = some i then amount else 0)
  else 0

theorem guarded_update_eq_map (accs : List Account) (aid : Option Nat) (δ : Rat) :
    guarded_update accs aid δ
      = accs.map (fun a =>
          if intTruthy aid ∧ aid = some a.id then { a with balance := a.balance + δ } else a) := by
  cases aid with
  | none => simp [guarded_update, intTruthy]
  | some j =>
      by_cases hj : j = 0
      · simp [guarded_update, intTruthy, hj]
      · rw [guarded_update]
        simp only [intTruthy, Option.getD_some, ne_eq, hj, not_false_iff, bne_iff_ne,
          if_pos, update_balance]
        refine List.map_congr_left (fun a _ => ?_)
        by_cases h : a.id = j
        · simp [h, hj]
        · rw [if_neg h]
          exact (if_neg (fun hc => h (Option.some.inj (And.right hc)).symm)).symm

theorem guarded_upd_apply (o : Option Nat) (δ : Rat) (b : Account) :
    (fun b : Account =>
        if intTruthy o ∧ o = some b.id then { b with balance := b.balance + δ } else b) b
      = if intTruthy o ∧ o = some b.id then { b with balance := b.balance + δ } else b := rfl

/-- Composing the two guarded per-row update functions adds both deltas
(each under its own guard) to the row's balance. -/
theorem comp_update_fn (δ1 δ2 : Rat) (o1 o2 : Option Nat) (a : Account) :
    (fun b : Account =>
        if intTruthy o2 ∧ o2 = some b.id then { b with balance := b.balance + δ2 } else b)
      ((fun b : Account =>
          if intTruthy o1 ∧ o1 = some b.id then { b with balance := b.balance + δ1 } else b) a)
      = { a with balance := a.balance
            + ((if intTruthy o1 ∧ o1 = some a.id then δ1 else 0)
                + (if intTruthy o2 ∧ o2 = some a.id then δ2 else 0)) } := by
  simp only [guarded_upd_apply]
  by_cases h1 : intTruthy o1 ∧ o1 = some a.id
  · rw [if_pos h1, if_pos h1]
    dsimp only
    by_cases h2 : intTruthy o2 ∧ o2 = some a.id
    · rw [if_pos h2, if_pos h2]
      simp only [Account.mk.injEq, true_and, and_true]
      ring
    · rw [if_neg h2, if_neg h2]
      simp only [Account.mk.injEq, true_and, and_true]
      ring
  · rw [if_neg h1, if_neg h1]
    by_cases h2 : intTruthy o2 ∧ o2 = some a.id
    · rw [if_pos h2, if_pos h2]
      simp only [Account.mk.injEq, true_and, and_true]
      ring
    · have hb : a.balance + ((0 : Rat) + 0) = a.balance := by ring
      rw [if_neg h2, if_neg h2, hb]

theorem guard_sum_sub (p q : Prop) [Decidable p] [Decidable q] (x : Rat) :
    (if p then x else 0) + (if q then -x else 0)
      = (if p then x else 0) - (if q then x else 0) := by
  by_cases hp : p <;> by_cases hq : q <;> simp [hp, hq]

theorem guard_sum_sub_swapped (p q : Prop) [Decidable p] [Decidable q] (x : Rat) :
    (if q then -x else 0) + (if p then x else 0)
      = (if p then x else 0) - (if q then x else 0) := by
  by_cases hp : p <;> by_cases hq : q <;> simp [hp, hq]

theorem balance_delta_of_ty (ty : String) (amount : Rat) (fid tid : Option Nat) (i : Nat)
    (h : ty = "DEPOSIT" ∨ ty = "TRANSFER" ∨ ty = "EXPENSE") :
    balance_delta ty amount fid tid i
      = (if intTruthy tid ∧ tid = some i then amount else 0)
        - (if intTruthy fid ∧ fid = some i then amount else 0) := by
  unfold balance_delta
  rw [if_pos h]

theorem balance_delta_other (ty : String) (amount : Rat) (fid tid : Option Nat) (i : Nat)
    (h1 : ty ≠ "DEPOSIT") (h2 : ty ≠ "TRANSFER") (h3 : ty ≠ "EXPENSE") :
    balance_delta ty amount fid tid i = 0 := by
  unfold balance_delta
  rw [if_neg]
  rintro (h | h | h) <;> contradiction

/-- The accounts table after `add_transaction`, as one map: each row's
balance moves by exactly `balance_delta` at its own id. -/
theorem add_transaction_accounts_eq (db : DB) (date ty desc : String) (amount : Rat)
    (fid tid : Option Nat) (fp : Option String) :
    (add_transaction db date ty desc amount fid tid fp).accounts
      = db.accounts.map
          (fun a => { a with balance := a.balance + balance_delta ty amount fid tid a.id }) := by
  by_cases h1 : ty = "DEPOSIT"
  · simp only [add_transaction, h1, if_pos, guarded_update_eq_map, List.map_map]
    refine List.map_congr_left (fun a _ => ?_)
    refine (comp_update_fn amount (-amount) tid fid a).trans ?_
    rw [guard_sum_sub, balance_delta_of_ty "DEPOSIT" amount fid tid a.id (Or.inl rfl)]
  · by_cases h2 : ty = "TRANSFER"
    · simp only [add_transaction, h1, h2, if_pos, if_neg, guarded_update_eq_map, List.map_map]
      refine List.map_congr_left (fun a _ => ?_)
      refine (comp_update_fn (-amount) amount fid tid a).trans ?_
      rw [guard_sum_sub_swapped,
        balance_delta_of_ty "TRANSFER" amount fid tid a.id (Or.inr (Or.inl rfl))]
    · by_cases h3 : ty = "EXPENSE"
      · simp only [add_transaction, h1, h2, h3, if_pos, if_neg, guarded_update_eq_map,
          List.map_map]
        refine List.map_congr_left (fun a _ => ?_)
        refine (comp_update_fn (-amount) amount fid tid a).trans ?_
        rw [guard_sum_sub_swapped,
          balance_delta_of_ty "EXPENSE" amount fid tid a.id (Or.inr (Or.inr rfl))]
      · simp only [add_transaction, h1, h2, h3, if_neg]
        have he : ∀ a ∈ db.accounts,
            ({ a with balance := a.balance + balance_delta ty amount fid tid a.id } : Account)
              = a := by
          intro a _
          rw [balance_delta_other ty amount fid tid a.id h1 h2 h3, add_zero]
        rw [List.map_congr_left he, List.map_id']
        simp

/-- `add_transaction` never changes the set (or order) of account ids. -/
theorem add_transaction_ids (db : DB) (date ty desc : String) (amount : Rat)
    (fid tid : Option Nat) (fp : Option String) :
    ((add_transaction db date ty desc amount fid tid fp).accounts).map (fun a => a.id)
      = db.accounts.map (fun a => a.id) := by
  rw [add_transaction_accounts_eq, List.map_map]
  rfl

/-- `add_transaction` appends exactly one row to the transaction table. -/
theorem add_transaction_transactions (db : DB) (date ty desc : String) (amount : Rat)
    (fid tid : Option Nat) (fp : Option String) :
    (add_transaction db date ty desc amount fid tid fp).transactions
      = db.transactions ++ [⟨db.next_txn_id, date, ty, desc, amount, fid, tid, fp⟩] :=
  rfl

theorem balance_of_add_transaction (db : DB) (date ty desc : String) (amount : Rat)
    (fid tid : Option Nat) (fp : Option String) (i : Nat)
    (h : (db.accounts.find? (fun a => a.id == i)).isSome = true) :
    balance_of (add_transaction db date ty desc amount fid tid fp) i
      = balance_of db i + balance_delta ty amount fid tid i := by
  obtain ⟨a, ha⟩ := Option.isSome_iff_exists.mp h
  have hid : a.id = i := by simpa using List.find?_some ha
  unfold balance_of
  rw [add_transaction_accounts_eq, List.find?_map]
  have hcomp : ((fun b : Account => b.id == i) ∘
      (fun b : Account => { b with balance := b.balance + balance_delta ty amount fid tid b.id }))
        = fun b : Account => b.id == i := rfl
  rw [hcomp, ha]
  simp [hid]

theorem sum_map_add_split (l : List Account) (g h : Account → Rat) :
    (l.map (fun a => g a + h a)).sum = (l.map g).sum + (l.map h).sum := by
  induction l with
  | nil => simp
  | cons a t ih => simp only [List.map_cons, List.sum_cons, ih]; ring

theorem total_balance_add_transaction_raw (db : DB) (date ty desc : String) (amount : Rat)
    (fid tid : Option Nat) (fp : Option String) :
    total_balance (add_transaction db date ty desc amount fid tid fp)
      = total_balance db
        + (db.accounts.map (fun a => balance_delta ty amount fid tid a.id)).sum := by
  unfold total_balance
  rw [add_transaction_accounts_eq, List.map_map]
  exact sum_map_add_split db.accounts (fun a => a.balance)
    (fun a => balance_delta ty amount fid tid a.id)

theorem sum_map_sub_split (l : List Account) (g h : Account → Rat) :
    (l.map (fun a => g a - h a)).sum = (l.map g).sum - (l.map h).sum := by
  induction l with
  | nil => simp
  | cons a t ih => simp only [List.map_cons, List.sum_cons, ih]; ring

theorem sum_if_some (accs : List Account) (j : Nat) (δ : Rat)
    (hnd : (accs.map (fun a => a.id)).Nodup) :
    (accs.map (fun a => if a.id = j then δ else 0)).sum
      = if accs.any (fun a => a.id == j) then δ else 0 := by
  induction accs with
  | nil => simp
  | cons a t ih =>
      rw [List.map_cons, List.nodup_cons] at hnd
      by_cases h : a.id = j
      · have htail : (t.map (fun b => if b.id = j then δ else 0)).sum = 0 := by
          refine List.sum_eq_zero (fun x hx => ?_)
          obtain ⟨b, hb, rfl⟩ := List.mem_map.mp hx
          have hbj : b.id ≠ j := fun hbj =>
            hnd.1 (List.mem_map.mpr ⟨b, hb, by rw [hbj, h]⟩)
          simp [hbj]
        simp [h, htail]
      · simp [h, ih hnd.2]

theorem sum_if_guard (accs : List Account) (o : Option Nat) (δ : Rat)
    (hnd : (accs.map (fun a => a.id)).Nodup)
    (hpos : ∀ a ∈ accs, a.id ≠ 0) :
    (accs.map (fun a => if intTruthy o ∧ o = some a.id then δ else 0)).sum
      = if ref_exists accs o then δ else 0 := by
  cases o with
  | none => simp [ref_exists, intTruthy]
  | some j =>
      by_cases hj : j = 0
      · subst hj
        have hz : (accs.map
            (fun a => if intTruthy (some 0) ∧ some 0 = some a.id then δ else 0)).sum = 0 := by
          refine List.sum_eq_zero (fun x hx => ?_)
          obtain ⟨b, _, rfl⟩ := List.mem_map.mp hx
          simp [intTruthy]
        rw [hz]
        have hany : accs.any (fun a => a.id == 0) = false := by
          rw [List.any_eq_false]
          intro a ha
          simpa using hpos a ha
        simp [ref_exists, hany]
      · have hcong : ∀ a ∈ accs,
            (if intTruthy (some j) ∧ some j = some a.id then δ else 0)
              = (if a.id = j then δ else 0) := by
          intro a _
          by_cases h : a.id = j
          · rw [if_pos ⟨by simp [intTruthy, hj], by rw [h]⟩, if_pos h]
          · rw [if_neg, if_neg h]
            rintro ⟨-, hc⟩
            exact h (Option.some.inj hc).symm
        rw [List.map_congr_left hcong, sum_if_some accs j δ hnd]
        rfl

/-- The one-step effect of `add_transaction` on the sum of all balances,
for a `type` in the closed set: `+amount` per resolving `to` reference,
`-amount` per resolving `from` reference. -/
theorem total_balance_add_transaction (db : DB) (date ty desc : String) (amount : Rat)
    (fid tid : Option Nat) (fp : Option String)
    (hty : ty = "DEPOSIT" ∨ ty = "TRANSFER" ∨ ty = "EXPENSE")
    (hnd : (db.accounts.map (fun a => a.id)).Nodup)
    (hpos : ∀ a ∈ db.accounts, a.id ≠ 0) :
    total_balance (add_transaction db date ty desc amount fid tid fp)
      = total_balance db + (if ref_exists db.accounts tid then amount else 0)
        - (if ref_exists db.accounts fid then amount else 0) := by
  rw [total_balance_add_transaction_raw]
  have hc : ∀ a ∈ db.accounts, balance_delta ty amount fid tid a.id
      = (if intTruthy tid ∧ tid = some a.id then amount else 0)
        - (if intTruthy fid ∧ fid = some a.id then amount else 0) :=
    fun a _ => balance_delta_of_ty ty amount fid tid a.id hty
  rw [List.map_congr_left hc, sum_map_sub_split, sum_if_guard _ tid amount hnd hpos,
    sum_if_guard _ fid amount hnd hpos]
  ring

theorem any_id_map (accs : List Account) (j : Nat) :
    accs.any (fun a => a.id == j) = (accs.map (fun a => a.id)).any (fun x => x == j) := by
  induction accs with
  | nil => rfl
  | cons a t ih => simp [ih]

theorem ref_exists_eq_of_ids {accs1 accs2 : List Account}
    (h : accs1.map (fun a => a.id) = accs2.map (fun a => a.id)) (o : Option Nat) :
    ref_exists accs1 o = ref_exists accs2 o := by
  cases o with
  | none => rfl
  | some j =>
      show accs1.any (fun a => a.id == j) = accs2.any (fun a => a.id == j)
      calc accs1.any (fun a => a.id == j)
          = (accs1.map (fun a => a.id)).any (fun x => x == j) := any_id_map accs1 j
        _ = (accs2.map (fun a => a.id)).any (fun x => x == j) := by rw [h]
        _ = accs2.any (fun a => a.id == j) := (any_id_map accs2 j).symm

theorem pos_ids_of_eq {accs1 accs2 : List Account}
    (h : accs1.map (fun a => a.id) = accs2.map (fun a => a.id))
    (hpos : ∀ a ∈ accs2, a.id ≠ 0) : ∀ a ∈ accs1, a.id ≠ 0 := by
  intro a ha
  have h1 : a.id ∈ accs1.map (fun b => b.id) := List.mem_map.mpr ⟨a, ha, rfl⟩
  rw [h] at h1
  obtain ⟨b, hb, he⟩ := List.mem_map.mp h1
  rw [← he]
  exact hpos b hb

theorem guard_simplify (o : Option Nat) (i : Nat) (δ : Rat) (hi : i ≠ 0) :
    (if intTruthy o ∧ o = some i then δ else 0) = (if o = some i then δ else 0) := by
  by_cases h : o = some i
  · rw [if_pos ⟨by simp [h, intTruthy, hi], h⟩, if_pos h]
  · rw [if_neg (fun hc => h hc.2), if_neg h]

theorem cond_false_of_not_ref (accs : List Account) (o : Option Nat)
    (href : ref_exists accs o = false) :
    ∀ a ∈ accs, ¬(intTruthy o = true ∧ o = some a.id) := by
  rintro a ha ⟨-, he⟩
  cases o with
  | none => exact Option.noConfusion he
  | some n =>
      have hall : ∀ b ∈ accs, ¬((fun b : Account => b.id == n) b = true) :=
        List.any_eq_false.mp href
      exact hall a ha (by simp [Option.some.inj he])

theorem balance_delta_zero_of_no_ref (ty : String) (amount : Rat) (fid tid : Option Nat)
    (accs : List Account) (a : Account) (ha : a ∈ accs)
    (hf : ref_exists accs fid = false) (ht : ref_exists accs tid = false) :
    balance_delta ty amount fid tid a.id = 0 := by
  have hT := cond_false_of_not_ref accs tid ht a ha
  have hF := cond_false_of_not_ref accs fid hf a ha
  by_cases h : ty = "DEPOSIT" ∨ ty = "TRANSFER" ∨ ty = "EXPENSE"
  · rw [balance_delta_of_ty _ _ _ _ _ h, if_neg hT, if_neg hF, sub_zero]
  · unfold balance_delta
    rw [if_neg h]

/-- C1: for a `type` in the closed set, `add_transaction` applies the one
symmetric rule: the balance of the existing account `i` moves by
`+amount` when it is the `to` reference and by `-amount` when it is the
`from` reference; with both references null the accounts table is
untouched; in every case the transaction row is recorded. -/
theorem c1_symmetric_balance_rule (db : DB) (date ty desc : String) (amount : Rat)
    (fid tid : Option Nat) (fp : Option String) (i : Nat)
    (hty : ty = "DEPOSIT" ∨ ty = "TRANSFER" ∨ ty = "EXPENSE")
    (hi : i ≠ 0)
    (hmem : (db.accounts.find? (fun a => a.id == i)).isSome = true) :
    balance_of (add_transaction db date ty desc amount fid tid fp) i
        = balance_of db i + (if tid = some i then amount else 0)
          - (if fid = some i then amount else 0)
      ∧ (fid = none → tid = none →
          (add_transaction db date ty desc amount fid tid fp).accounts = db.accounts)
      ∧ (add_transaction db date ty desc amount fid tid fp).transactions
          = db.transactions ++ [⟨db.next_txn_id, date, ty, desc, amount, fid, tid, fp⟩] := by
  refine ⟨?_, ?_, rfl⟩
  · rw [balance_of_add_transaction db date ty desc amount fid tid fp i hmem,
      balance_delta_of_ty ty amount fid tid i hty,
      guard_simplify tid i amount hi, guard_simplify fid i amount hi]
    ring
  · rintro rfl rfl
    rw [add_transaction_accounts_eq]
    have hz : ∀ a ∈ db.accounts,
        ({ a with balance := a.balance + balance_delta ty amount none none a.id } : Account)
          = a := by
      intro a ha
      rw [balance_delta_zero_of_no_ref ty amount none none db.accounts a ha rfl rfl, add_zero]
    rw [List.map_congr_left hz, List.map_id']

theorem c1_witness :
    balance_of
        (add_transaction ⟨[⟨1, "Safe", 100⟩], [], 2, 1⟩
          "2024-01-01" "TRANSFER" "" 7 none (some 1) none) 1
      = balance_of (⟨[⟨1, "Safe", 100⟩], [], 2, 1⟩ : DB) 1
        + (if (some 1 : Option Nat) = some 1 then (7 : Rat) else 0)
        - (if (none : Option Nat) = some 1 then (7 : Rat) else 0) :=
  (c1_symmetric_balance_rule ⟨[⟨1, "Safe", 100⟩], [], 2, 1⟩
    "2024-01-01" "TRANSFER" "" 7 none (some 1) none 1
    (Or.inr (Or.inl rfl)) (by decide) (by decide)).1

/-- C2 counterexample: a `TRANSFER` whose `from_account_id` references the
nonexistent account 2 raises nothing: the transaction row IS inserted
(the claim demands failure with the transaction table unchanged), while
balances stay as they were (the `UPDATE` matched no row). -/
theorem c2_counterexample :
    (add_transaction ⟨[⟨1, "Safe", 100⟩], [], 2, 1⟩
        "2024-01-01" "TRANSFER" "" 5 (some 2) none none).transactions.length = 1
      ∧ (add_transaction ⟨[⟨1, "Safe", 100⟩], [], 2, 1⟩
          "2024-01-01" "TRANSFER" "" 5 (some 2) none none).accounts
            = [⟨1, "Safe", 100⟩] := by
  constructor
  · rfl
  · decide

/-- C2 amended: a transaction whose non-null account references resolve
to no existing account does not fail: the row is inserted and every
account balance is left unchanged (`UPDATE ... WHERE id = ?` silently
matches no row; no `NotFoundError` exists in the code). -/
theorem c2_dangling_reference_silent (db : DB) (date ty desc : String) (amount : Rat)
    (fid tid : Option Nat) (fp : Option String)
    (hne : fid ≠ none ∨ tid ≠ none)
    (hf : ref_exists db.accounts fid = false)
    (ht : ref_exists db.accounts tid = false) :
    (add_transaction db date ty desc amount fid tid fp).accounts = db.accounts
      ∧ (add_transaction db date ty desc amount fid tid fp).transactions
          = db.transactions ++ [⟨db.next_txn_id, date, ty, desc, amount, fid, tid, fp⟩] := by
  refine ⟨?_, rfl⟩
  rw [add_transaction_accounts_eq]
  have hz : ∀ a ∈ db.accounts,
      ({ a with balance := a.balance + balance_delta ty amount fid tid a.id } : Account)
        = a := by
    intro a ha
    rw [balance_delta_zero_of_no_ref ty amount fid tid db.accounts a ha hf ht, add_zero]
  rw [List.map_congr_left hz, List.map_id']

theorem c2_witness :
    (add_transaction ⟨[⟨1, "Safe", 100⟩], [], 2, 1⟩
        "2024-01-02" "EXPENSE" "" 3 (some 2) none none).accounts = [⟨1, "Safe", 100⟩]
      ∧ (add_transaction ⟨[⟨1, "Safe", 100⟩], [], 2, 1⟩
          "2024-01-02" "EXPENSE" "" 3 (some 2) none none).transactions
            = [⟨1, "2024-01-02", "EXPENSE", "", 3, some 2, none, none⟩] :=
  c2_dangling_reference_silent ⟨[⟨1, "Safe", 100⟩], [], 2, 1⟩
    "2024-01-02" "EXPENSE" "" 3 (some 2) none none
    (Or.inl (by decide)) (by decide) (by decide)

/-- C3 counterexample: a transaction with a `type` outside the closed set
and a negative amount raises no `ValidationError`; its row is inserted
into the transaction table (the claim demands no store mutation). -/
theorem c3_counterexample :
    (add_transaction init_database
        "2024-01-01" "WITHDRAWAL" "" (-5) none none none).transactions.length = 1 :=
  rfl

/-- C3 amended: `add_transaction` performs no validation at all: for
every `type` (inside or outside the closed set) and every `amount`
(negative included), the call succeeds and unconditionally inserts the
transaction row under the next autoincrement id. -/
theorem c3_no_validation (db : DB) (date ty desc : String) (amount : Rat)
    (fid tid : Option Nat) (fp : Option String) :
    (add_transaction db date ty desc amount fid tid fp).transactions
        = db.transactions ++ [⟨db.next_txn_id, date, ty, desc, amount, fid, tid, fp⟩]
      ∧ (add_transaction db date ty desc amount fid tid fp).next_txn_id
          = db.next_txn_id + 1 :=
  ⟨rfl, rfl⟩

/-- C9: a transaction whose `type` is none of DEPOSIT, TRANSFER, EXPENSE
is still inserted, no error is raised, and every balance is unchanged
(no update branch runs). -/
theorem c9_unknown_type_frame (db : DB) (date ty desc : String) (amount : Rat)
    (fid tid : Option Nat) (fp : Option String)
    (h1 : ty ≠ "DEPOSIT") (h2 : ty ≠ "TRANSFER") (h3 : ty ≠ "EXPENSE") :
    (add_transaction db date ty desc amount fid tid fp).accounts = db.accounts
      ∧ (add_transaction db date ty desc amount fid tid fp).transactions
          = db.transactions ++ [⟨db.next_txn_id, date, ty, desc, amount, fid, tid, fp⟩] := by
  refine ⟨?_, rfl⟩
  rw [add_transaction_accounts_eq]
  have hz : ∀ a ∈ db.accounts,
      ({ a with balance := a.balance + balance_delta ty amount fid tid a.id } : Account)
        = a := by
    intro a _
    rw [balance_delta_other ty amount fid tid a.id h1 h2 h3, add_zero]
  rw [List.map_congr_left hz, List.map_id']

theorem c9_witness :
    (add_transaction ⟨[⟨1, "Safe", 100⟩], [], 2, 1⟩
        "2024-01-03" "WITHDRAWAL" "w" 5 (some 1) none none).accounts = [⟨1, "Safe", 100⟩]
      ∧ (add_transaction ⟨[⟨1, "Safe", 100⟩], [], 2, 1⟩
          "2024-01-03" "WITHDRAWAL" "w" 5 (some 1) none none).transactions
            = [⟨1, "2024-01-03", "WITHDRAWAL", "w", 5, some 1, none, none⟩] :=
  c9_unknown_type_frame ⟨[⟨1, "Safe", 100⟩], [], 2, 1⟩
    "2024-01-03" "WITHDRAWAL" "w" 5 (some 1) none none
    (by decide) (by decide) (by decide)

/-- C10: the effect of one `add_transaction` (type in the closed set,
distinct ends when both present) on the sum of all balances: `+amount`
when only the `to` reference resolves, `-amount` when only the `from`
reference resolves, unchanged when both or neither resolve. -/
theorem c10_total_balance_change (db : DB) (date ty desc : String) (amount : Rat)
    (fid tid : Option Nat) (fp : Option String)
    (hty : ty = "DEPOSIT" ∨ ty = "TRANSFER" ∨ ty = "EXPENSE")
    (hdist : ∀ f t, fid = some f → tid = some t → f ≠ t)
    (hnd : (db.accounts.map (fun a => a.id)).Nodup)
    (hpos : ∀ a ∈ db.accounts, a.id ≠ 0) :
    (ref_exists db.accounts tid = true → ref_exists db.accounts fid = false →
        total_balance (add_transaction db date ty desc amount fid tid fp)
          = total_balance db + amount)
      ∧ (ref_exists db.accounts tid = false → ref_exists db.accounts fid = true →
          total_balance (add_transaction db date ty desc amount fid tid fp)
            = total_balance db - amount)
      ∧ (ref_exists db.accounts tid = ref_exists db.accounts fid →
          total_balance (add_transaction db date ty desc amount fid tid fp)
            = total_balance db) := by
  have key := total_balance_add_transaction db date ty desc amount fid tid fp hty hnd hpos
  refine ⟨?_, ?_, ?_⟩
  · intro hT hF
    rw [key, hT, hF]
    simp
  · intro hT hF
    rw [key, hT, hF]
    simp
  · intro h
    rw [key, h]
    by_cases hb : ref_exists db.accounts fid = true
    · rw [if_pos hb]
      ring
    · rw [if_neg hb]
      ring

theorem c10_witness :
    total_balance (add_transaction ⟨[⟨1, "Safe", 1000⟩, ⟨2, "Bank", 0⟩], [], 3, 1⟩
        "2024-01-01" "TRANSFER" "" 200 (some 1) (some 2) none)
      = total_balance (⟨[⟨1, "Safe", 1000⟩, ⟨2, "Bank", 0⟩], [], 3, 1⟩ : DB) :=
  (c10_total_balance_change ⟨[⟨1, "Safe", 1000⟩, ⟨2, "Bank", 0⟩], [], 3, 1⟩
      "2024-01-01" "TRANSFER" "" 200 (some 1) (some 2) none
      (Or.inr (Or.inl rfl))
      (fun f t hf ht => by
        rw [← Option.some.inj hf, ← Option.some.inj ht]
        decide)
      (by decide) (by decide)).2.2 (by decide)

/-- C5: a sequence of TRANSFER transactions whose two ends both reference
existing accounts conserves the sum of all balances. -/
theorem c5_transfer_conservation (db : DB) (ts : List TxnInput)
    (hnd : (db.accounts.map (fun a => a.id)).Nodup)
    (hpos : ∀ a ∈ db.accounts, a.id ≠ 0)
    (hts : ∀ t ∈ ts, t.type = "TRANSFER"
        ∧ ref_exists db.accounts t.from_account_id = true
        ∧ ref_exists db.accounts t.to_account_id = true) :
    total_balance (apply_all db ts) = total_balance db := by
  induction ts generalizing db with
  | nil => rfl
  | cons t rest ih =>
      obtain ⟨hty, hf, hto⟩ := hts t (List.mem_cons_self t rest)
      have hids : ((add_transaction_input db t).accounts).map (fun a => a.id)
          = db.accounts.map (fun a => a.id) :=
        add_transaction_ids db t.date t.type t.description t.amount
          t.from_account_id t.to_account_id t.file_path
      have hstep : total_balance (add_transaction_input db t) = total_balance db := by
        show total_balance (add_transaction db t.date t.type t.description t.amount
          t.from_account_id t.to_account_id t.file_path) = total_balance db
        rw [total_balance_add_transaction db t.date t.type t.description t.amount
          t.from_account_id t.to_account_id t.file_path (Or.inr (Or.inl hty)) hnd hpos,
          hto, hf]
        simp
      have hnd2 : (((add_transaction_input db t).accounts).map (fun a => a.id)).Nodup :=
        hids ▸ hnd
      have hpos2 := pos_ids_of_eq hids hpos
      have hts2 : ∀ u ∈ rest, u.type = "TRANSFER"
          ∧ ref_exists (add_transaction_input db t).accounts u.from_account_id = true
          ∧ ref_exists (add_transaction_input db t).accounts u.to_account_id = true := by
        intro u hu
        obtain ⟨h1, h2, h3⟩ := hts u (List.mem_cons_of_mem t hu)
        exact ⟨h1, by rw [ref_exists_eq_of_ids hids]; exact h2,
          by rw [ref_exists_eq_of_ids hids]; exact h3⟩
      calc total_balance (apply_all db (t :: rest))
          = total_balance (apply_all (add_transaction_input db t) rest) := rfl
        _ = total_balance (add_transaction_input db t) := ih _ hnd2 hpos2 hts2
        _ = total_balance db := hstep

theorem c5_witness :
    total_balance (apply_all ⟨[⟨1, "Cash", 1000⟩, ⟨2, "Vault", 50⟩], [], 3, 1⟩
        [⟨"2024-02-01", "TRANSFER", "move", 200, some 1, some 2, none⟩,
         ⟨"2024-02-02", "TRANSFER", "back", 75, some 2, some 1, none⟩])
      = total_balance (⟨[⟨1, "Cash", 1000⟩, ⟨2, "Vault", 50⟩], [], 3, 1⟩ : DB) :=
  c5_transfer_conservation ⟨[⟨1, "Cash", 1000⟩, ⟨2, "Vault", 50⟩], [], 3, 1⟩
    [⟨"2024-02-01", "TRANSFER", "move", 200, some 1, some 2, none⟩,
     ⟨"2024-02-02", "TRANSFER", "back", 75, some 2, some 1, none⟩]
    (by decide) (by decide) (by decide)

/-- C6: creating an account under a name that already exists fails with
the duplicate-name error (the `UNIQUE` constraint) and leaves the
account table — indeed the whole state — unchanged. -/
theorem c6_duplicate_name (db : DB) (name : String) (balance : Rat)
    (h : ∃ a ∈ db.accounts, a.name = name) :
    add_account db name balance = Except.error DBError.duplicateName
      ∧ add_account_run db name balance = db := by
  have hany : db.accounts.any (fun a => a.name == name) = true := by
    obtain ⟨a, ha, he⟩ := h
    exact List.any_eq_true.mpr ⟨a, ha, by simp [he]⟩
  have he : add_account db name balance = Except.error DBError.duplicateName := by
    unfold add_account
    rw [if_pos hany]
  refine ⟨he, ?_⟩
  unfold add_account_run
  rw [he]

theorem c6_witness :
    add_account ⟨[⟨1, "Safe", 100⟩], [], 2, 1⟩ "Safe" 5
        = Except.error DBError.duplicateName
      ∧ add_account_run ⟨[⟨1, "Safe", 100⟩], [], 2, 1⟩ "Safe" 5
          = ⟨[⟨1, "Safe", 100⟩], [], 2, 1⟩ :=
  c6_duplicate_name ⟨[⟨1, "Safe", 100⟩], [], 2, 1⟩ "Safe" 5
    ⟨⟨1, "Safe", 100⟩, by decide, rfl⟩

/-- C7: the confirmed reset empties both tables and resets both
autoincrement counters, so the next created account gets id 1 and the
next inserted transaction gets id 1. -/
theorem c7_reset_counters (db : DB) (name : String) (balance : Rat)
    (date ty desc : String) (amount : Rat) (fid tid : Option Nat) (fp : Option String) :
    (reset_application true db).accounts = []
      ∧ (reset_application true db).transactions = []
      ∧ add_account (reset_application true db) name balance
          = Except.ok ⟨[⟨1, name, balance⟩], [], 2, 1⟩
      ∧ (add_transaction (reset_application true db) date ty desc amount fid tid fp).transactions
          = [⟨1, date, ty, desc, amount, fid, tid, fp⟩] :=
  ⟨rfl, rfl, rfl, rfl⟩

/-- C8: the export artifact sits at the fixed path, has exactly the
seven columns in order, one row per transaction in store-join order
(row `i` is the joined projection of transaction `i`), and two exports
of the same ledger state are identical. -/
theorem c8_export_shape (db : DB) :
    (export_transactions db).1 = "./uploads/transactions.xlsx"
      ∧ (export_transactions db).2.1
          = ["Date", "Type", "Description", "Amount", "From Account", "To Account", "File Path"]
      ∧ (export_transactions db).2.2.length = db.transactions.length
      ∧ (∀ i : Fin db.transactions.length,
          (export_transactions db).2.2.get
              ⟨i.1, by simp [export_transactions]⟩
            = export_row db.accounts (db.transactions.get i))
      ∧ (∀ e1 e2, e1 = export_transactions db → e2 = export_transactions db → e1 = e2) := by
  refine ⟨rfl, rfl, List.length_map _ _, ?_, fun e1 e2 h1 h2 => h1.trans h2.symm⟩
  intro i
  simp [export_transactions, List.get_eq_getElem, List.getElem_map]

theorem c8_witness :
    export_transactions (add_transaction_input init_database
        ⟨"2024-03-01", "DEPOSIT", "", 5, none, none, none⟩)
      = export_transactions (add_transaction_input init_database
          ⟨"2024-03-01", "DEPOSIT", "", 5, none, none, none⟩) :=
  (c8_export_shape (add_transaction_input init_database
      ⟨"2024-03-01", "DEPOSIT", "", 5, none, none, none⟩)).2.2.2.2 _ _ rfl rfl

/-- The signed delta the balance-effect table assigns to account id `i`
for a logged transaction `t`, recomputed from the stored row alone
(zero for a `type` outside the table). -/
def audit_delta (t : Txn) (i : Nat) : Rat :=
  if t.type = "DEPOSIT" ∨ t.type = "TRANSFER" ∨ t.type = "EXPENSE" then
    (if t.to_account_id = some i then t.amount else 0)
      - (if t.from_account_id = some i then t.amount else 0)
  else 0

/-- The audit recomputation: sum of the table's deltas over every logged
transaction referencing account id `i`. -/
def audit_sum (db : DB) (i : Nat) : Rat :=
  (db.transactions.map (fun t => audit_delta t i)).sum

/-- An optional account reference that is null or resolves in the
current state. -/
def ref_ok (db : DB) (o : Option Nat) : Prop :=
  ∀ j, o = some j → ∃ a ∈ db.accounts, a.id = j

/-- States reachable from the fresh database, carrying each account's
initial balance by id: `acc` records the created account's initial
balance, `txn` requires the transaction's references to resolve (or be
null) at application time. -/
inductive Reached : DB → (Nat → Rat) → Prop where
  | init : Reached init_database (fun _ => 0)
  | acc {d : DB} {f : Nat → Rat} {n : String} {b : Rat} {e : DB} :
      Reached d f → add_account d n b = Except.ok e →
      Reached e (fun i => if i = d.next_account_id then b else f i)
  | txn {d : DB} {f : Nat → Rat} {s u c : String} {m : Rat} {o p : Option Nat}
      {w : Option String} :
      Reached d f → ref_ok d o → ref_ok d p →
      Reached (add_transaction d s u c m o p w) f

/-- Structural invariant of reachable states: ids are positive and below
the autoincrement counter, and logged references resolve. -/
def WF (db : DB) : Prop :=
  0 < db.next_account_id
    ∧ (∀ a ∈ db.accounts, a.id ≠ 0 ∧ a.id < db.next_account_id)
    ∧ (∀ t ∈ db.transactions, ref_ok db t.from_account_id ∧ ref_ok db t.to_account_id)

theorem audit_sum_snoc (ts : List Txn) (row : Txn) (i : Nat) :
    ((ts ++ [row]).map (fun t => audit_delta t i)).sum
      = (ts.map (fun t => audit_delta t i)).sum + audit_delta row i := by
  rw [List.map_append, List.sum_append]
  simp

theorem balance_delta_eq_audit_delta (k : Nat) (s u c : String) (m : Rat)
    (o p : Option Nat) (w : Option String) (i : Nat) (hi : i ≠ 0) :
    balance_delta u m o p i = audit_delta ⟨k, s, u, c, m, o, p, w⟩ i := by
  unfold audit_delta
  dsimp only
  by_cases hset : u = "DEPOSIT" ∨ u = "TRANSFER" ∨ u = "EXPENSE"
  · rw [balance_delta_of_ty u m o p i hset, if_pos hset,
      guard_simplify p i m hi, guard_simplify o i m hi]
  · rw [balance_delta_other u m o p i (fun h => hset (Or.inl h))
      (fun h => hset (Or.inr (Or.inl h))) (fun h => hset (Or.inr (Or.inr h))), if_neg hset]

theorem ref_ok_add_transaction (d : DB) (s u c : String) (m : Rat)
    (o p : Option Nat) (w : Option String) (q : Option Nat) (h : ref_ok d q) :
    ref_ok (add_transaction d s u c m o p w) q := by
  intro j hj
  obtain ⟨a, ha, hid⟩ := h j hj
  refine ⟨{ a with balance := a.balance + balance_delta u m o p a.id }, ?_, hid⟩
  rw [add_transaction_accounts_eq]
  exact List.mem_map.mpr ⟨a, ha, rfl⟩

/-- The inductive invariant: every reachable state is well formed and
every account's balance is its initial balance plus the audit
recomputation from the transaction log. -/
theorem reached_wf_audit {db : DB} {f : Nat → Rat} (h : Reached db f) :
    WF db ∧ ∀ a ∈ db.accounts, a.balance = f a.id + audit_sum db a.id := by
  induction h with
  | init =>
      exact ⟨⟨Nat.one_pos, fun a ha => absurd ha (List.not_mem_nil a),
        fun t ht => absurd ht (List.not_mem_nil t)⟩,
        fun a ha => absurd ha (List.not_mem_nil a)⟩
  | acc hr heq ih =>
      rename_i d f1 n b e
      obtain ⟨⟨hpos0, hacc, htx⟩, haud⟩ := ih
      unfold add_account at heq
      by_cases hany : d.accounts.any (fun a => a.name == n) = true
      · rw [if_pos hany] at heq
        exact Except.noConfusion heq
      · rw [if_neg hany] at heq
        obtain rfl : e = { d with
            accounts := d.accounts ++ [⟨d.next_account_id, n, b⟩],
            next_account_id := d.next_account_id + 1 } := (Except.ok.inj heq).symm
        refine ⟨⟨Nat.succ_pos _, ?_, ?_⟩, ?_⟩
        · intro a ha
          rcases List.mem_append.mp ha with hmem | hmem
          · obtain ⟨h1, h2⟩ := hacc a hmem
            exact ⟨h1, Nat.lt_succ_of_lt h2⟩
          · rw [List.mem_singleton] at hmem
            subst hmem
            exact ⟨Nat.pos_iff_ne_zero.mp hpos0, Nat.lt_succ_self _⟩
        · intro t ht
          obtain ⟨h1, h2⟩ := htx t ht
          refine ⟨fun j hj => ?_, fun j hj => ?_⟩
          · obtain ⟨a, ha, hid⟩ := h1 j hj
            exact ⟨a, List.mem_append_left _ ha, hid⟩
          · obtain ⟨a, ha, hid⟩ := h2 j hj
            exact ⟨a, List.mem_append_left _ ha, hid⟩
        · intro a ha
          rcases List.mem_append.mp ha with hmem | hmem
          · obtain ⟨hne0, hlt⟩ := hacc a hmem
            show a.balance
              = (if a.id = d.next_account_id then b else f1 a.id) + audit_sum d a.id
            rw [if_neg (Nat.ne_of_lt hlt)]
            exact haud a hmem
          · rw [List.mem_singleton] at hmem
            subst hmem
            show b = (if d.next_account_id = d.next_account_id then b
                else f1 d.next_account_id) + audit_sum d d.next_account_id
            rw [if_pos rfl]
            have hz : audit_sum d d.next_account_id = 0 := by
              refine List.sum_eq_zero (fun x hx => ?_)
              obtain ⟨t, ht, rfl⟩ := List.mem_map.mp hx
              obtain ⟨h1, h2⟩ := htx t ht
              unfold audit_delta
              by_cases hset : t.type = "DEPOSIT" ∨ t.type = "TRANSFER" ∨ t.type = "EXPENSE"
              · have hTo : ¬(t.to_account_id = some d.next_account_id) := by
                  intro hc
                  obtain ⟨a, ha, hid⟩ := h2 _ hc
                  exact absurd (hacc a ha).2 (by rw [hid]; exact lt_irrefl _)
                have hFrom : ¬(t.from_account_id = some d.next_account_id) := by
                  intro hc
                  obtain ⟨a, ha, hid⟩ := h1 _ hc
                  exact absurd (hacc a ha).2 (by rw [hid]; exact lt_irrefl _)
                rw [if_pos hset, if_neg hTo, if_neg hFrom, sub_zero]
              · rw [if_neg hset]
            rw [hz, add_zero]
  | txn hr hro hrp ih =>
      rename_i d f1 s u c m o p w
      obtain ⟨⟨hpos0, hacc, htx⟩, haud⟩ := ih
      refine ⟨⟨hpos0, ?_, ?_⟩, ?_⟩
      · intro a2 ha2
        rw [show (add_transaction d s u c m o p w).accounts
            = d.accounts.map (fun a =>
                { a with balance := a.balance + balance_delta u m o p a.id })
          from add_transaction_accounts_eq d s u c m o p w] at ha2
        obtain ⟨a, ha, rfl⟩ := List.mem_map.mp ha2
        exact hacc a ha
      · intro t ht
        rcases List.mem_append.mp ht with hold | hnew
        · obtain ⟨h1, h2⟩ := htx t hold
          exact ⟨ref_ok_add_transaction d s u c m o p w _ h1,
            ref_ok_add_transaction d s u c m o p w _ h2⟩
        · rw [List.mem_singleton] at hnew
          subst hnew
          exact ⟨ref_ok_add_transaction d s u c m o p w _ hro,
            ref_ok_add_transaction d s u c m o p w _ hrp⟩
      · intro a2 ha2
        rw [show (add_transaction d s u c m o p w).accounts
            = d.accounts.map (fun a =>
                { a with balance := a.balance + balance_delta u m o p a.id })
          from add_transaction_accounts_eq d s u c m o p w] at ha2
        obtain ⟨a, ha, rfl⟩ := List.mem_map.mp ha2
        show a.balance + balance_delta u m o p a.id
          = f1 a.id + audit_sum (add_transaction d s u c m o p w) a.id
        have h1 := haud a ha
        have hi : a.id ≠ 0 := (hacc a ha).1
        have h2 : balance_delta u m o p a.id
            = audit_delta ⟨d.next_txn_id, s, u, c, m, o, p, w⟩ a.id :=
          balance_delta_eq_audit_delta d.next_txn_id s u c m o p w a.id hi
        have h3 : audit_sum (add_transaction d s u c m o p w) a.id
            = audit_sum d a.id + audit_delta ⟨d.next_txn_id, s, u, c, m, o, p, w⟩ a.id := by
          show ((d.transactions ++ [(⟨d.next_txn_id, s, u, c, m, o, p, w⟩ : Txn)]).map
              (fun t => audit_delta t a.id)).sum
            = audit_sum d a.id + audit_delta ⟨d.next_txn_id, s, u, c, m, o, p, w⟩ a.id
          rw [audit_sum_snoc]
          rfl
        rw [h1, h2, h3]
        ring

/-- C4 counterexample: the claim omits initial balances and timing.
Scenario A: after creating "Safe" with initial balance 1000 and no
transactions, the balance is 1000 while the recomputed delta sum is 0.
Scenario B: a transaction logged before account 1 existed makes the
recomputed sum 4 while the later-created account's balance is its
initial 7. -/
theorem c4_counterexample :
    balance_of (add_account_run init_database "Safe" 1000) 1 = 1000
      ∧ audit_sum (add_account_run init_database "Safe" 1000) 1 = 0
      ∧ balance_of (add_account_run
          (add_transaction init_database "2024-01-01" "TRANSFER" "" 4 none (some 1) none)
          "Late" 7) 1 = 7
      ∧ audit_sum (add_account_run
          (add_transaction init_database "2024-01-01" "TRANSFER" "" 4 none (some 1) none)
          "Late" 7) 1 = 4 := by
  refine ⟨by decide, by decide, by decide, ?_⟩
  norm_num [audit_sum, audit_delta, add_account_run, add_account, add_transaction,
    init_database, guarded_update, intTruthy, update_balance]
  decide

/-- C4 amended: in every state reachable from the fresh database whose
transactions referenced only accounts existing (or null references) at
application time, each account's balance equals its recorded initial
balance plus the sum of signed deltas, per the balance-effect table, of
every logged transaction referencing it. -/
theorem c4_audit (db : DB) (f : Nat → Rat) (h : Reached db f) :
    ∀ a ∈ db.accounts, a.balance = f a.id + audit_sum db a.id :=
  (reached_wf_audit h).2

theorem c4_witness :
    balance_of (add_account_run init_database "Safe" 100) 1
      = 100 + audit_sum (add_account_run init_database "Safe" 100) 1 := by
  have hreach : Reached (add_account_run init_database "Safe" 100)
      (fun i => if i = 1 then (100 : Rat) else 0) := by
    have h0 : add_account init_database "Safe" 100
        = Except.ok ⟨[⟨1, "Safe", 100⟩], [], 2, 1⟩ := rfl
    exact Reached.acc Reached.init h0
  have h := c4_audit _ _ hreach ⟨1, "Safe", 100⟩ (by
    show (⟨1, "Safe", 100⟩ : Account) ∈ (add_account_run init_database "Safe" 100).accounts
    decide)
  have hb : balance_of (add_account_run init_database "Safe" 100) 1 = 100 := by decide
  rw [hb]
  simpa using h

end CashCustody
